import Mathlib

/-!
Shallow embedding of the `tokenizer` module (src/mod.ts) of the
Iuriiiii/tokenizer repository, together with proofs of the specification
claims.  Input text is modelled as `List Char` (mirroring the per-code-unit
loop `for (let i = 0; i < text.length; i++)`), machine numbers as `Nat`,
and the pluggable validator record as a structure of Lean functions.
-/

namespace Tokenizer

/-- Token kinds, mirroring `enum TokenType` in src/mod.ts (line 32). -/
inductive TokenType where
  | Unknown
  | String
  | Number
  | Identifier
  | Operator
  | Separator
  | Space
  | Instruction
  | EOF
deriving DecidableEq, Repr

/-- Mirrors `interface IToken` in src/mod.ts (line 47): uid, type, text,
line and pos.  Text is a list of characters. -/
structure Token where
  uid : Nat
  type : TokenType
  text : List Char
  line : Nat
  pos : Nat
deriving DecidableEq, Repr

/-- Modelled from the spec: the external collaborator `getStringUid` from
the package `@online/get-string-uid` is not part of this repository; the
spec describes it only as a pure deterministic fingerprint
`text -> numeric id` with equal text yielding equal uid.  Any concrete
pure function satisfies that contract; we use a simple code-point sum.
No claim in this development depends on its values. -/
def getStringUid (cs : List Char) : Nat :=
  cs.foldl (fun a c => a + c.toNat) 0

/-- The resolved validator set (mirrors `ITokenizerValidators`,
src/mod.ts line 79; the `??`-defaulting of `Partial` options at
lines 147-154 is represented by constructing a fully resolved record). -/
structure Policy where
  isCharacter : Char → Nat → Nat → Bool
  isNumber : Char → Nat → Nat → Bool
  isSpace : Char → Nat → Nat → Bool
  isOperator : Char → Nat → Nat → Bool
  isNumberSeparator : Char → Nat → Nat → Bool
  isSeparator : Char → Nat → Nat → Bool
  isString : Char → Nat → Nat → Bool
  isInstruction : List Char → Nat → Nat → Bool

/-- `const minLetter1 = "a".charCodeAt(0)` (src/mod.ts line 3). -/
def minLetter1 : Nat := 'a'.toNat

/-- `const maxLetter1 = "z".charCodeAt(0)` (src/mod.ts line 4). -/
def maxLetter1 : Nat := 'z'.toNat

/-- `const minLetter2 = "A".charCodeAt(0)` (src/mod.ts line 5). -/
def minLetter2 : Nat := 'A'.toNat

/-- `const maxLetter2 = "Z".charCodeAt(0)` (src/mod.ts line 6). -/
def maxLetter2 : Nat := 'Z'.toNat

/-- `const minNumber = "0".charCodeAt(0)` (src/mod.ts line 7). -/
def minNumber : Nat := '0'.toNat

/-- `const maxNumber = "9".charCodeAt(0)` (src/mod.ts line 8). -/
def maxNumber : Nat := '9'.toNat

/-- `_isAlpha` (src/mod.ts line 10). -/
def defaultIsAlpha (c : Char) : Bool :=
  decide (minLetter1 ≤ c.toNat ∧ c.toNat ≤ maxLetter1) ||
  decide (minLetter2 ≤ c.toNat ∧ c.toNat ≤ maxLetter2)

/-- `_isNumeric` (src/mod.ts line 15). -/
def defaultIsNumeric (c : Char) : Bool :=
  decide (minNumber ≤ c.toNat ∧ c.toNat ≤ maxNumber)

/-- The characters of the literal `"[](){}.#?Â¿:;, "` in `_isSeparator`
(src/mod.ts line 21).  The source file stores the inverted question mark
mojibake-encoded as the two code units U+00C2 U+00BF; JavaScript's
per-code-unit `includes` therefore sees both characters. -/
def separatorChars : List Char :=
  ['[', ']', '(', ')', '{', '}', '.', '#', '?',
   Char.ofNat 0xC2, Char.ofNat 0xBF, ':', ';', ',', ' ']

/-- `_isSeparator` (src/mod.ts line 20). -/
def defaultIsSeparator (c : Char) : Bool := separatorChars.contains c

/-- The characters of the literal `" \t\r\n"` in `_isSpace`
(src/mod.ts line 25). -/
def spaceChars : List Char := [' ', '\t', '\r', '\n']

/-- `_isSpace` (src/mod.ts line 24). -/
def defaultIsSpace (c : Char) : Bool := spaceChars.contains c

/-- The characters of the literal `"+-*/^%&=<>"` in `_isOperator`
(src/mod.ts line 29). -/
def operatorChars : List Char :=
  ['+', '-', '*', '/', '^', '%', '&', '=', '<', '>']

/-- `_isOperator` (src/mod.ts line 28). -/
def defaultIsOperator (c : Char) : Bool := operatorChars.contains c

/-- The fully defaulted policy: the `??` fallbacks of src/mod.ts
lines 147-154 (default string delimiter `"`, default number separator
`.`, `isInstruction` constantly false). -/
def defaultPolicy : Policy where
  isCharacter := fun c _ _ => defaultIsAlpha c
  isNumber := fun c _ _ => defaultIsNumeric c
  isSpace := fun c _ _ => defaultIsSpace c
  isOperator := fun c _ _ => defaultIsOperator c
  isNumberSeparator := fun c _ _ => decide (c = '.')
  isSeparator := fun c _ _ => defaultIsSeparator c
  isString := fun c _ _ => decide (c = '"')
  isInstruction := fun _ _ _ => false

/-- The scanning state of one `tokenizer` invocation: the output list
`tokens`, the counters `line` and `pos`, and the pending accumulator
`token` (src/mod.ts lines 146, 155-157). -/
structure ScanState where
  tokens : List Token
  line : Nat
  pos : Nat
  tok : Token
deriving DecidableEq, Repr

/-- `resetToken` (src/mod.ts line 159): a fresh `Unknown` accumulator
capturing the current counters. -/
def resetTok (line pos : Nat) : Token :=
  { uid := 0, type := TokenType.Unknown, text := [], line := line, pos := pos }

/-- The initial state: `line = 1`, `pos = 1`, empty output, fresh
accumulator (src/mod.ts lines 155-157). -/
def initState : ScanState :=
  { tokens := [], line := 1, pos := 1, tok := resetTok 1 1 }

/-- The finalization performed by `pushToken` on the accumulator before
appending it (src/mod.ts lines 161-167): promote `Identifier` to
`Instruction` when `isInstruction` accepts the text at the current
counters, then refresh `uid` from the final text. -/
def finalizeTok (pol : Policy) (line pos : Nat) (t : Token) : Token :=
  let t1 := if t.type = TokenType.Identifier ∧ pol.isInstruction t.text line pos = true
    then { t with type := TokenType.Instruction } else t
  { t1 with uid := getStringUid t1.text }

/-- `pushToken` (src/mod.ts line 161): finalize the accumulator, append
it to the output, reset the accumulator at the current counters. -/
def pushToken (pol : Policy) (s : ScanState) : ScanState :=
  { s with
    tokens := s.tokens ++ [finalizeTok pol s.line s.pos s.tok]
    tok := resetTok s.line s.pos }

/-- `types.find((type) => type !== TokenType.Unknown)` as used by
`pushIfNotTypes` and `concatIfTypes` (src/mod.ts lines 176, 183). -/
def findType (types : List TokenType) : Option TokenType :=
  types.find? (fun ty => decide (¬ ty = TokenType.Unknown))

/-- Assignment of the `find` result to `token.type`.  In JavaScript the
`none` case assigns `undefined`; it arises only in the terminal
`pushIfNotTypes([TokenType.Unknown])` call after which the accumulator
is never read again, so leaving the type unchanged is observationally
identical. -/
def setType (oty : Option TokenType) (t : Token) : Token :=
  match oty with
  | some ty => { t with type := ty }
  | none => t

/-- `pushIfNotTypes` (src/mod.ts line 171): push the accumulator when
its type is not in `types`, then overwrite its type with the first
non-`Unknown` entry of `types`. -/
def pushIfNotTypes (pol : Policy) (types : List TokenType) (s : ScanState) : ScanState :=
  let s1 := if s.tok.type ∈ types then s else pushToken pol s
  { s1 with tok := setType (findType types) s1.tok }

/-- `concatIfTypes` (src/mod.ts line 179): when the accumulator's type is
in `types`, append `str` to its text, refresh its uid, and overwrite its
type with the first non-`Unknown` entry of `types`. -/
def concatIfTypes (_pol : Policy) (types : List TokenType) (str : List Char) (s : ScanState) : ScanState :=
  if s.tok.type ∈ types then
    let t1 : Token := { s.tok with
      text := s.tok.text ++ str
      uid := getStringUid (s.tok.text ++ str) }
    { s with tok := setType (findType types) t1 }
  else s

/-- The newline handling at the top of the loop body (src/mod.ts
lines 192-195): on `\n`, increment `line` and reset `pos` to 1 before
the character is classified. -/
def adjustNl (c : Char) (s : ScanState) : ScanState :=
  if c = '\n' then { s with line := s.line + 1, pos := 1 } else s

/-- The guard of the escaped-delimiter branch (src/mod.ts line 199):
`token.text.endsWith("\\")`. -/
def endsWithBackslash (cs : List Char) : Bool :=
  decide (cs.getLast? = some '\\')

/-- Whether the current character takes the swallow-and-`continue`
branch of the string case (src/mod.ts lines 198-202): it is a string
delimiter and the accumulator text ends in a backslash.  The validator
sees the counters after newline adjustment. -/
def swallowsEsc (pol : Policy) (c : Char) (s : ScanState) : Bool :=
  let s1 := adjustNl c s
  pol.isString c s1.line s1.pos && endsWithBackslash s1.tok.text

/-- The non-escape part of the string-delimiter case (src/mod.ts
lines 204-209): push any foreign accumulator, append the delimiter to a
String accumulator, and emit immediately when the text has length
greater than one and starts and ends with this same delimiter. -/
def stringCase (pol : Policy) (c : Char) (s : ScanState) : ScanState :=
  let s1 := pushIfNotTypes pol [TokenType.Unknown, TokenType.String] s
  let s2 := concatIfTypes pol [TokenType.String, TokenType.Unknown] [c] s1
  if s2.tok.type = TokenType.String ∧ 1 < s2.tok.text.length ∧
      s2.tok.text.head? = some c ∧ s2.tok.text.getLast? = some c then
    pushToken pol s2
  else s2

/-- The digit case (src/mod.ts lines 228-234): a digit continues an
active Identifier, otherwise starts or continues a Number. -/
def numericCase (pol : Policy) (c : Char) (s : ScanState) : ScanState :=
  let ty := if s.tok.type = TokenType.Identifier then TokenType.Identifier else TokenType.Number
  concatIfTypes pol [ty] [c] (pushIfNotTypes pol [TokenType.Unknown, ty] s)

/-- The letter case (src/mod.ts lines 235-241): a letter continues an
active Number, otherwise starts or continues an Identifier. -/
def alphaCase (pol : Policy) (c : Char) (s : ScanState) : ScanState :=
  let ty := if s.tok.type = TokenType.Number then TokenType.Number else TokenType.Identifier
  concatIfTypes pol [ty] [c] (pushIfNotTypes pol [TokenType.Unknown, ty] s)

/-- The `switch (true)` dispatch (src/mod.ts lines 197-253), applied to
the newline-adjusted state, for a character that did not take the
escape-swallow branch.  The cases appear in source order. -/
def dispatch (pol : Policy) (c : Char) (s : ScanState) : ScanState :=
  if pol.isString c s.line s.pos = true then
    stringCase pol c s
  else if s.tok.type = TokenType.String then
    concatIfTypes pol [TokenType.String] [c] s
  else if pol.isSpace c s.line s.pos = true then
    concatIfTypes pol [TokenType.Space] [c]
      (pushIfNotTypes pol [TokenType.Unknown, TokenType.Space] s)
  else if pol.isSeparator c s.line s.pos = true then
    if pol.isNumberSeparator c s.line s.pos = true ∧ s.tok.type = TokenType.Number then
      concatIfTypes pol [TokenType.Number] [c]
        (pushIfNotTypes pol [TokenType.Unknown, TokenType.Number] s)
    else
      concatIfTypes pol [TokenType.Separator] [c]
        (pushIfNotTypes pol [TokenType.Unknown, TokenType.Separator] s)
  else if pol.isNumber c s.line s.pos = true then
    numericCase pol c s
  else if pol.isCharacter c s.line s.pos = true then
    alphaCase pol c s
  else if pol.isOperator c s.line s.pos = true then
    concatIfTypes pol [TokenType.Operator] [c]
      (pushIfNotTypes pol [TokenType.Unknown, TokenType.Operator] s)
  else if pol.isNumberSeparator c s.line s.pos = true ∧ s.tok.type = TokenType.Number then
    concatIfTypes pol [TokenType.Number] [c]
      (pushIfNotTypes pol [TokenType.Unknown, TokenType.Number] s)
  else
    concatIfTypes pol [TokenType.Identifier] [c]
      (pushIfNotTypes pol [TokenType.Unknown, TokenType.Identifier] s)

/-- One iteration of the scanning loop (src/mod.ts lines 189-256):
newline adjustment, then either the escape-swallow branch — whose
`continue` skips the `pos++` at line 255 — or the dispatch followed by
`pos++`. -/
def processChar (pol : Policy) (c : Char) (s0 : ScanState) : ScanState :=
  let s := adjustNl c s0
  if swallowsEsc pol c s0 = true then
    { s with tok := { s.tok with text := s.tok.text ++ [c] } }
  else
    let s1 := dispatch pol c s
    { s1 with pos := s1.pos + 1 }

/-- The whole scanning loop over a character sequence. -/
def runScan (pol : Policy) (cs : List Char) (s : ScanState) : ScanState :=
  cs.foldl (fun s c => processChar pol c s) s

/-- The EOF token literal (src/mod.ts line 261). -/
def eofTok : Token :=
  { uid := 0, type := TokenType.EOF, text := [], line := 0, pos := 0 }

/-- `tokenizer` (src/mod.ts line 145): scan all characters, flush any
pending accumulator via `pushIfNotTypes([TokenType.Unknown])`
(line 258), and optionally append the EOF token (lines 260-262). -/
def tokenizer (pol : Policy) (insertEofFlag : Bool) (cs : List Char) : List Token :=
  let s := runScan pol cs initState
  let s1 := pushIfNotTypes pol [TokenType.Unknown] s
  s1.tokens ++ (if insertEofFlag then [eofTok] else [])

/-- Concatenation of the texts of a token sequence. -/
def joinText (ts : List Token) : List Char :=
  (ts.map Token.text).flatten

/-- The pending accumulator invariant maintained between loop
iterations: its type is `Unknown` exactly when its text is empty, and
it is never `EOF` or `Instruction` (those types are only ever attached
to already-emitted tokens). -/
def TokOk (t : Token) : Prop :=
  (t.type = TokenType.Unknown ↔ t.text = []) ∧
  ¬ t.type = TokenType.EOF ∧ ¬ t.type = TokenType.Instruction

/-- What holds of every token emitted by the scan: never `Unknown`,
never `EOF`, never empty, and `Instruction` only when `isInstruction`
accepted its text at some counter values. -/
def GoodTok (pol : Policy) (t : Token) : Prop :=
  ¬ t.type = TokenType.Unknown ∧ ¬ t.type = TokenType.EOF ∧ ¬ t.text = [] ∧
  (t.type = TokenType.Instruction → ∃ l p, pol.isInstruction t.text l p = true)

/-- The per-character postcondition: the accumulator invariant is
preserved, the output grows only by appended tokens, those tokens are
well-formed, and their texts followed by the new accumulator text
extend the old accumulator text by exactly the processed character. -/
def StepOut (pol : Policy) (c : Char) (s s' : ScanState) : Prop :=
  TokOk s'.tok ∧ ∃ new, s'.tokens = s.tokens ++ new ∧
    joinText new ++ s'.tok.text = s.tok.text ++ [c] ∧ ∀ t ∈ new, GoodTok pol t

/-- The whole-scan postcondition, extending `StepOut` over a character
sequence. -/
def RunOut (pol : Policy) (cs : List Char) (s s' : ScanState) : Prop :=
  TokOk s'.tok ∧ ∃ new, s'.tokens = s.tokens ++ new ∧
    joinText new ++ s'.tok.text = s.tok.text ++ cs ∧ ∀ t ∈ new, GoodTok pol t

/-- Capture discipline for the accumulator's stored position: across one
operation it is either left untouched or (re)captured from the current
counters. -/
def CapOk (s s' : ScanState) : Prop :=
  (s'.tok.line = s.tok.line ∧ s'.tok.pos = s.tok.pos) ∨
  (s'.tok.line = s.line ∧ s'.tok.pos = s.pos)

/-- The policy of claim C7: defaults with `isNumberSeparator` overridden
to accept underscore and dot (the override used by the repository's
test `tokenizer should handle mixed decimal and underscore
separators`). -/
def numSepPolicy : Policy :=
  { defaultPolicy with isNumberSeparator := fun c _ _ => decide (c = '_' ∨ c = '.') }

/-- Instrumented scan: alongside the state, the second component counts
executions of the `pos++` at src/mod.ts line 255 and the third counts
the escape-swallow `continue`s (src/mod.ts line 201) that skip it.  The
state component takes exactly the `processChar` step. -/
def stepInc (pol : Policy) (si : ScanState × Nat × Nat) (c : Char) : ScanState × Nat × Nat :=
  (processChar pol c si.1,
    if swallowsEsc pol c si.1 = true then (si.2.1, si.2.2 + 1) else (si.2.1 + 1, si.2.2))

/-- The instrumented scan over a character sequence. -/
def runInc (pol : Policy) (cs : List Char) (si : ScanState × Nat × Nat) : ScanState × Nat × Nat :=
  cs.foldl (stepInc pol) si

lemma adjustNl_tok (c : Char) (s : ScanState) : (adjustNl c s).tok = s.tok := by
  unfold adjustNl; split <;> rfl

lemma adjustNl_tokens (c : Char) (s : ScanState) : (adjustNl c s).tokens = s.tokens := by
  unfold adjustNl; split <;> rfl

lemma adjustNl_line (c : Char) (s : ScanState) :
    (adjustNl c s).line = s.line + (if c = '\n' then 1 else 0) := by
  unfold adjustNl; split <;> simp

lemma setType_text (o : Option TokenType) (t : Token) : (setType o t).text = t.text := by
  cases o <;> rfl

lemma setType_line (o : Option TokenType) (t : Token) : (setType o t).line = t.line := by
  cases o <;> rfl

lemma setType_pos (o : Option TokenType) (t : Token) : (setType o t).pos = t.pos := by
  cases o <;> rfl

lemma finalizeTok_text (pol : Policy) (l p : Nat) (t : Token) :
    (finalizeTok pol l p t).text = t.text := by
  unfold finalizeTok; split <;> rfl

lemma finalizeTok_type (pol : Policy) (l p : Nat) (t : Token) :
    (finalizeTok pol l p t).type =
      if t.type = TokenType.Identifier ∧ pol.isInstruction t.text l p = true
        then TokenType.Instruction else t.type := by
  unfold finalizeTok; split <;> rfl

lemma GoodTok_finalize (pol : Policy) (l p : Nat) (t : Token)
    (h1 : ¬ t.type = TokenType.Unknown) (h2 : ¬ t.type = TokenType.EOF)
    (h3 : ¬ t.type = TokenType.Instruction) (h4 : ¬ t.text = []) :
    GoodTok pol (finalizeTok pol l p t) := by
  by_cases hc : t.type = TokenType.Identifier ∧ pol.isInstruction t.text l p = true
  · exact ⟨by rw [finalizeTok_type, if_pos hc]; decide,
      by rw [finalizeTok_type, if_pos hc]; decide,
      by rw [finalizeTok_text]; exact h4,
      fun _ => ⟨l, p, by rw [finalizeTok_text]; exact hc.2⟩⟩
  · refine ⟨by rw [finalizeTok_type, if_neg hc]; exact h1,
      by rw [finalizeTok_type, if_neg hc]; exact h2,
      by rw [finalizeTok_text]; exact h4, fun hI => ?_⟩
    rw [finalizeTok_type, if_neg hc] at hI
    exact absurd hI h3

lemma joinText_nil : joinText [] = [] := rfl

lemma joinText_single (t : Token) : joinText [t] = t.text := by
  simp [joinText]

lemma joinText_append (a b : List Token) :
    joinText (a ++ b) = joinText a ++ joinText b := by
  simp [joinText]

lemma endsWithBackslash_ne_nil (cs : List Char) (h : endsWithBackslash cs = true) :
    ¬ cs = [] := by
  intro he
  subst he
  simp [endsWithBackslash] at h

lemma stepOut_advance (pol : Policy) (c : Char) (s s' : ScanState) (X : TokenType)
    (hU : ¬ X = TokenType.Unknown) (hE : ¬ X = TokenType.EOF)
    (hI : ¬ X = TokenType.Instruction)
    (htk : s'.tokens = s.tokens) (hty : s'.tok.type = X)
    (htx : s'.tok.text = s.tok.text ++ [c]) : StepOut pol c s s' := by
  refine ⟨⟨?_, by rw [hty]; exact hE, by rw [hty]; exact hI⟩,
    [], by simp [htk], by simp [joinText_nil, htx], by simp⟩
  rw [hty, htx]
  exact iff_of_false hU (by simp)

lemma stepOut_keep (pol : Policy) (c : Char) (s s' : ScanState)
    (h : TokOk s.tok) (hne : ¬ s.tok.text = [])
    (htk : s'.tokens = s.tokens) (hty : s'.tok.type = s.tok.type)
    (htx : s'.tok.text = s.tok.text ++ [c]) : StepOut pol c s s' := by
  refine ⟨⟨?_, by rw [hty]; exact h.2.1, by rw [hty]; exact h.2.2⟩,
    [], by simp [htk], by simp [joinText_nil, htx], by simp⟩
  rw [hty, htx]
  exact iff_of_false (fun hu => hne (h.1.mp hu)) (by simp)

lemma stepOut_capture (pol : Policy) (c : Char) (s s' : ScanState) (X : TokenType)
    (hU : ¬ X = TokenType.Unknown) (hE : ¬ X = TokenType.EOF)
    (hI : ¬ X = TokenType.Instruction)
    (h : TokOk s.tok) (hsU : ¬ s.tok.type = TokenType.Unknown)
    (htk : s'.tokens = s.tokens ++ [finalizeTok pol s.line s.pos s.tok])
    (hty : s'.tok.type = X) (htx : s'.tok.text = [c]) : StepOut pol c s s' := by
  have hne : ¬ s.tok.text = [] := fun he => hsU (h.1.mpr he)
  refine ⟨⟨?_, by rw [hty]; exact hE, by rw [hty]; exact hI⟩,
    [finalizeTok pol s.line s.pos s.tok], htk,
    by rw [joinText_single, finalizeTok_text, htx],
    by intro t ht
       rw [List.mem_singleton] at ht
       subst ht
       exact GoodTok_finalize pol s.line s.pos s.tok hsU h.2.1 h.2.2 hne⟩
  rw [hty, htx]
  exact iff_of_false hU (by simp)

lemma stepOut_then_push (pol : Policy) (c : Char) (s s2 : ScanState)
    (hso : StepOut pol c s s2) (hU : ¬ s2.tok.type = TokenType.Unknown) :
    StepOut pol c s (pushToken pol s2) := by
  obtain ⟨hok, new, htk, hjoin, hgood⟩ := hso
  have hne : ¬ s2.tok.text = [] := fun he => hU (hok.1.mpr he)
  refine ⟨⟨by simp [pushToken, resetTok], by simp [pushToken, resetTok],
      by simp [pushToken, resetTok]⟩,
    new ++ [finalizeTok pol s2.line s2.pos s2.tok], ?_, ?_, ?_⟩
  · show s2.tokens ++ _ = _
    rw [htk, List.append_assoc]
  · show joinText _ ++ (resetTok s2.line s2.pos).text = _
    rw [joinText_append, joinText_single, finalizeTok_text]
    simp [resetTok]
    exact hjoin
  · intro t ht
    rcases List.mem_append.mp ht with hin | hin
    · exact hgood t hin
    · rw [List.mem_singleton] at hin
      subst hin
      exact GoodTok_finalize pol s2.line s2.pos s2.tok hU hok.2.1 hok.2.2 hne

lemma cp_stepOut (pol : Policy) (c : Char) (s : ScanState) (X : TokenType)
    (hU : ¬ X = TokenType.Unknown) (hE : ¬ X = TokenType.EOF)
    (hI : ¬ X = TokenType.Instruction) (h : TokOk s.tok) :
    StepOut pol c s (concatIfTypes pol [X] [c] (pushIfNotTypes pol [TokenType.Unknown, X] s)) := by
  have hf1 : findType [TokenType.Unknown, X] = some X := by
    simp [findType, List.find?, hU]
  have hf2 : findType [X] = some X := by
    simp [findType, List.find?, hU]
  by_cases hm : s.tok.type ∈ [TokenType.Unknown, X]
  all_goals simp only [List.mem_cons, List.mem_singleton, List.not_mem_nil, or_false] at hm
  · have e : concatIfTypes pol [X] [c] (pushIfNotTypes pol [TokenType.Unknown, X] s) =
        { s with tok := { s.tok with type := X, text := s.tok.text ++ [c], uid := getStringUid (s.tok.text ++ [c]) } } := by
      simp [pushIfNotTypes, concatIfTypes, hf1, hf2, setType, hm]
    exact stepOut_advance pol c s _ X hU hE hI (by rw [e]) (by rw [e]) (by rw [e])
  · have hsU : ¬ s.tok.type = TokenType.Unknown := fun hu => hm (Or.inl hu)
    have e : concatIfTypes pol [X] [c] (pushIfNotTypes pol [TokenType.Unknown, X] s) =
        { s with tokens := s.tokens ++ [finalizeTok pol s.line s.pos s.tok], tok := { uid := getStringUid [c], type := X, text := [c], line := s.line, pos := s.pos } } := by
      simp [pushIfNotTypes, concatIfTypes, pushToken, resetTok, hf1, hf2, setType, hm]
    exact stepOut_capture pol c s _ X hU hE hI h hsU (by rw [e]) (by rw [e]) (by rw [e])

lemma sa_stepOut (pol : Policy) (c : Char) (s : ScanState) (h : TokOk s.tok) :
    StepOut pol c s (concatIfTypes pol [TokenType.String, TokenType.Unknown] [c]
        (pushIfNotTypes pol [TokenType.Unknown, TokenType.String] s)) ∧
      (concatIfTypes pol [TokenType.String, TokenType.Unknown] [c]
        (pushIfNotTypes pol [TokenType.Unknown, TokenType.String] s)).tok.type = TokenType.String := by
  have hf1 : findType [TokenType.Unknown, TokenType.String] = some TokenType.String := rfl
  have hf2 : findType [TokenType.String, TokenType.Unknown] = some TokenType.String := rfl
  by_cases hm : s.tok.type ∈ [TokenType.Unknown, TokenType.String]
  all_goals simp only [List.mem_cons, List.mem_singleton, List.not_mem_nil, or_false] at hm
  · have e : concatIfTypes pol [TokenType.String, TokenType.Unknown] [c]
        (pushIfNotTypes pol [TokenType.Unknown, TokenType.String] s) =
        { s with tok := { s.tok with type := TokenType.String, text := s.tok.text ++ [c], uid := getStringUid (s.tok.text ++ [c]) } } := by
      simp [pushIfNotTypes, concatIfTypes, hf1, hf2, setType, hm]
    exact ⟨stepOut_advance pol c s _ TokenType.String (by decide) (by decide) (by decide)
      (by rw [e]) (by rw [e]) (by rw [e]), by rw [e]⟩
  · have hsU : ¬ s.tok.type = TokenType.Unknown := fun hu => hm (Or.inl hu)
    have e : concatIfTypes pol [TokenType.String, TokenType.Unknown] [c]
        (pushIfNotTypes pol [TokenType.Unknown, TokenType.String] s) =
        { s with tokens := s.tokens ++ [finalizeTok pol s.line s.pos s.tok], tok := { uid := getStringUid [c], type := TokenType.String, text := [c], line := s.line, pos := s.pos } } := by
      simp [pushIfNotTypes, concatIfTypes, pushToken, resetTok, hf1, hf2, setType, hm]
    exact ⟨stepOut_capture pol c s _ TokenType.String (by decide) (by decide) (by decide) h hsU
      (by rw [e]) (by rw [e]) (by rw [e]), by rw [e]⟩

lemma stringCase_stepOut (pol : Policy) (c : Char) (s : ScanState) (h : TokOk s.tok) :
    StepOut pol c s (stringCase pol c s) := by
  obtain ⟨hso, hty⟩ := sa_stepOut pol c s h
  simp only [stringCase]
  split
  · exact stepOut_then_push pol c s _ hso (by rw [hty]; decide)
  · exact hso

lemma numericCase_stepOut (pol : Policy) (c : Char) (s : ScanState) (h : TokOk s.tok) :
    StepOut pol c s (numericCase pol c s) := by
  simp only [numericCase]
  by_cases hid : s.tok.type = TokenType.Identifier
  · rw [if_pos hid]
    exact cp_stepOut pol c s TokenType.Identifier (by decide) (by decide) (by decide) h
  · rw [if_neg hid]
    exact cp_stepOut pol c s TokenType.Number (by decide) (by decide) (by decide) h

lemma alphaCase_stepOut (pol : Policy) (c : Char) (s : ScanState) (h : TokOk s.tok) :
    StepOut pol c s (alphaCase pol c s) := by
  simp only [alphaCase]
  by_cases hn : s.tok.type = TokenType.Number
  · rw [if_pos hn]
    exact cp_stepOut pol c s TokenType.Number (by decide) (by decide) (by decide) h
  · rw [if_neg hn]
    exact cp_stepOut pol c s TokenType.Identifier (by decide) (by decide) (by decide) h

lemma dispatch_stepOut (pol : Policy) (c : Char) (s : ScanState) (h : TokOk s.tok) :
    StepOut pol c s (dispatch pol c s) := by
  unfold dispatch
  by_cases h1 : pol.isString c s.line s.pos = true
  · rw [if_pos h1]
    exact stringCase_stepOut pol c s h
  · rw [if_neg h1]
    by_cases h2 : s.tok.type = TokenType.String
    · rw [if_pos h2]
      have e : concatIfTypes pol [TokenType.String] [c] s =
          { s with tok := { s.tok with type := TokenType.String, text := s.tok.text ++ [c], uid := getStringUid (s.tok.text ++ [c]) } } := by
        simp [concatIfTypes, h2, setType, findType, List.find?]
      exact stepOut_advance pol c s _ TokenType.String (by decide) (by decide) (by decide)
        (by rw [e]) (by rw [e]) (by rw [e])
    · rw [if_neg h2]
      by_cases h3 : pol.isSpace c s.line s.pos = true
      · rw [if_pos h3]
        exact cp_stepOut pol c s TokenType.Space (by decide) (by decide) (by decide) h
      · rw [if_neg h3]
        by_cases h4 : pol.isSeparator c s.line s.pos = true
        · rw [if_pos h4]
          by_cases h5 : pol.isNumberSeparator c s.line s.pos = true ∧ s.tok.type = TokenType.Number
          · rw [if_pos h5]
            exact cp_stepOut pol c s TokenType.Number (by decide) (by decide) (by decide) h
          · rw [if_neg h5]
            exact cp_stepOut pol c s TokenType.Separator (by decide) (by decide) (by decide) h
        · rw [if_neg h4]
          by_cases h6 : pol.isNumber c s.line s.pos = true
          · rw [if_pos h6]
            exact numericCase_stepOut pol c s h
          · rw [if_neg h6]
            by_cases h7 : pol.isCharacter c s.line s.pos = true
            · rw [if_pos h7]
              exact alphaCase_stepOut pol c s h
            · rw [if_neg h7]
              by_cases h8 : pol.isOperator c s.line s.pos = true
              · rw [if_pos h8]
                exact cp_stepOut pol c s TokenType.Operator (by decide) (by decide) (by decide) h
              · rw [if_neg h8]
                by_cases h9 : pol.isNumberSeparator c s.line s.pos = true ∧ s.tok.type = TokenType.Number
                · rw [if_pos h9]
                  exact cp_stepOut pol c s TokenType.Number (by decide) (by decide) (by decide) h
                · rw [if_neg h9]
                  exact cp_stepOut pol c s TokenType.Identifier (by decide) (by decide) (by decide) h

lemma processChar_stepOut (pol : Policy) (c : Char) (s : ScanState) (h : TokOk s.tok) :
    StepOut pol c s (processChar pol c s) := by
  simp only [processChar]
  by_cases hsw : swallowsEsc pol c s = true
  · rw [if_pos hsw]
    have hbs : endsWithBackslash s.tok.text = true := by
      have := (Bool.and_eq_true _ _).mp (by simpa [swallowsEsc] using hsw)
      rw [← adjustNl_tok c s]
      exact this.2
    exact stepOut_keep pol c s _ h (endsWithBackslash_ne_nil _ hbs)
      (by simp [adjustNl_tokens]) (by simp [adjustNl_tok]) (by simp [adjustNl_tok])
  · rw [if_neg hsw]
    have hd := dispatch_stepOut pol c (adjustNl c s) (by rw [adjustNl_tok]; exact h)
    obtain ⟨hok, new, e1, e2, e3⟩ := hd
    rw [adjustNl_tokens] at e1
    rw [adjustNl_tok] at e2
    exact ⟨hok, new, e1, e2, e3⟩

lemma runScan_stepOut (pol : Policy) :
    ∀ (cs : List Char) (s : ScanState), TokOk s.tok → RunOut pol cs s (runScan pol cs s) := by
  intro cs
  induction cs with
  | nil =>
    intro s h
    exact ⟨h, [], by simp [runScan], by simp [runScan, joinText_nil], by simp⟩
  | cons c cs ih =>
    intro s h
    obtain ⟨hok1, n1, e1, j1, g1⟩ := processChar_stepOut pol c s h
    obtain ⟨hok2, n2, e2, j2, g2⟩ := ih (processChar pol c s) hok1
    refine ⟨hok2, n1 ++ n2, ?_, ?_, ?_⟩
    · show (runScan pol cs (processChar pol c s)).tokens = _
      rw [e2, e1, List.append_assoc]
    · show joinText (n1 ++ n2) ++ (runScan pol cs (processChar pol c s)).tok.text = _
      rw [joinText_append, List.append_assoc, j2, ← List.append_assoc, j1,
        List.append_assoc, List.singleton_append]
    · intro t ht
      rcases List.mem_append.mp ht with hin | hin
      · exact g1 t hin
      · exact g2 t hin

lemma flush_stepOut (pol : Policy) (s : ScanState) (h : TokOk s.tok) :
    ∃ new, (pushIfNotTypes pol [TokenType.Unknown] s).tokens = s.tokens ++ new ∧
      joinText new = s.tok.text ∧ ∀ t ∈ new, GoodTok pol t := by
  by_cases hm : s.tok.type = TokenType.Unknown
  · refine ⟨[], ?_, ?_, by simp⟩
    · simp [pushIfNotTypes, hm, setType, findType, List.find?]
    · rw [joinText_nil, h.1.mp hm]
  · refine ⟨[finalizeTok pol s.line s.pos s.tok], ?_, ?_, ?_⟩
    · simp [pushIfNotTypes, hm, pushToken, setType, findType, List.find?]
    · rw [joinText_single, finalizeTok_text]
    · intro t ht
      rw [List.mem_singleton] at ht
      subst ht
      exact GoodTok_finalize pol s.line s.pos s.tok hm h.2.1 h.2.2 (fun he => hm (h.1.mpr he))

lemma tokOk_init : TokOk initState.tok :=
  ⟨by simp [initState, resetTok], by simp [initState, resetTok], by simp [initState, resetTok]⟩

/-- Decomposition of any `tokenizer` run: the output is the scanned body
followed by the optional EOF token; the body's concatenated text is the
input and every body token is well-formed. -/
lemma tokenizer_body (pol : Policy) (eofFlag : Bool) (cs : List Char) :
    ∃ body, tokenizer pol eofFlag cs = body ++ (if eofFlag then [eofTok] else []) ∧
      joinText body = cs ∧ ∀ t ∈ body, GoodTok pol t := by
  obtain ⟨hok, n1, e1, j1, g1⟩ := runScan_stepOut pol cs initState tokOk_init
  obtain ⟨n2, e2, j2, g2⟩ := flush_stepOut pol (runScan pol cs initState) hok
  refine ⟨n1 ++ n2, ?_, ?_, ?_⟩
  · show (pushIfNotTypes pol [TokenType.Unknown] (runScan pol cs initState)).tokens ++ _ = _
    rw [e2, e1]
    simp [initState, List.append_assoc]
  · rw [joinText_append, j2]
    rw [j1]
    simp [initState, resetTok]
  · intro t ht
    rcases List.mem_append.mp ht with hin | hin
    · exact g1 t hin
    · exact g2 t hin

/-- Claim C1: for every input string and every classification policy,
concatenating the text fields of the tokens returned by `tokenizer`, in
order and excluding any EOF token, yields exactly the original input
string. -/
theorem tokenizer_coverage_roundtrip (pol : Policy) (eofFlag : Bool) (cs : List Char) :
    joinText ((tokenizer pol eofFlag cs).filter (fun t => decide (¬ t.type = TokenType.EOF))) = cs := by
  obtain ⟨body, e, j, g⟩ := tokenizer_body pol eofFlag cs
  rw [e, List.filter_append]
  have hb : body.filter (fun t => decide (¬ t.type = TokenType.EOF)) = body := by
    rw [List.filter_eq_self]
    intro t ht
    simpa using (g t ht).2.1
  have he : (if eofFlag then [eofTok] else []).filter
      (fun t => decide (¬ t.type = TokenType.EOF)) = [] := by
    cases eofFlag <;> simp [eofTok]
  rw [hb, he, List.append_nil, j]

/-- Claim C8: no returned token has type `Unknown`, and every returned
token other than the optional EOF token has non-empty text. -/
theorem no_unknown_tokens (pol : Policy) (eofFlag : Bool) (cs : List Char) (t : Token)
    (ht : t ∈ tokenizer pol eofFlag cs) :
    ¬ t.type = TokenType.Unknown ∧ (¬ t.type = TokenType.EOF → ¬ t.text = []) := by
  obtain ⟨body, e, j, g⟩ := tokenizer_body pol eofFlag cs
  rw [e] at ht
  rcases List.mem_append.mp ht with hin | hin
  · exact ⟨(g t hin).1, fun _ => (g t hin).2.2.1⟩
  · have heq : t = eofTok := by
      cases eofFlag
      · simp at hin
      · simpa using hin
    subst heq
    exact ⟨by decide, fun hne => absurd rfl hne⟩

/-- Witness for C8 at the concrete input `"ab"` with the default
policy. -/
theorem no_unknown_tokens_witness :
    (⟨195, TokenType.Identifier, ['a', 'b'], 1, 1⟩ : Token) ∈
        tokenizer defaultPolicy false "ab".toList ∧
      ¬ (⟨195, TokenType.Identifier, ['a', 'b'], 1, 1⟩ : Token).type = TokenType.Unknown :=
  ⟨by decide,
    (no_unknown_tokens defaultPolicy false "ab".toList _ (by decide)).1⟩

lemma length_le_joinText (ts : List Token) (h : ∀ t ∈ ts, ¬ t.text = []) :
    ts.length ≤ (joinText ts).length := by
  induction ts with
  | nil => simp [joinText_nil]
  | cons t ts ih =>
    have e : joinText (t :: ts) = t.text ++ joinText ts := by simp [joinText]
    rw [e, List.length_append, List.length_cons]
    have h1 : 1 ≤ t.text.length := by
      have hne := h t (by simp)
      cases e2 : t.text with
      | nil => exact absurd e2 hne
      | cons a l => simp [e2]
    have h2 := ih (fun t2 ht2 => h t2 (by simp [ht2]))
    omega

/-- Claim C9: the embedding of `tokenizer` is a total function (defined
by structural recursion over the input), and its output is bounded: at
most one token per input character plus the optional EOF token.  There
is no error branch. -/
theorem tokenizer_total_bounded (pol : Policy) (eofFlag : Bool) (cs : List Char) :
    (tokenizer pol eofFlag cs).length ≤ cs.length + 1 := by
  obtain ⟨body, e, j, g⟩ := tokenizer_body pol eofFlag cs
  rw [e, List.length_append]
  have h1 : body.length ≤ cs.length := by
    have hl := length_le_joinText body (fun t ht => (g t ht).2.2.1)
    rwa [j] at hl
  have h2 : (if eofFlag then [eofTok] else []).length ≤ 1 := by
    cases eofFlag <;> simp
  omega

/-- Claim C6: a token is finalized with type `Instruction` iff its
accumulator type was `Identifier` and `isInstruction` accepted its text
at the current counters; when `isInstruction` rejects, the token is
emitted unchanged; and for a policy whose `isInstruction` is constantly
false, `Instruction` never appears in `tokenizer` output. -/
theorem instruction_promotion_iff (pol : Policy) (eofFlag : Bool) (cs : List Char)
    (l p : Nat) (a t : Token) :
    (¬ a.type = TokenType.Instruction →
      ((finalizeTok pol l p a).type = TokenType.Instruction ↔
        a.type = TokenType.Identifier ∧ pol.isInstruction a.text l p = true)) ∧
    (pol.isInstruction a.text l p = false →
      (finalizeTok pol l p a).type = a.type ∧ (finalizeTok pol l p a).text = a.text) ∧
    ((∀ s2 l2 p2, pol.isInstruction s2 l2 p2 = false) →
      t ∈ tokenizer pol eofFlag cs → ¬ t.type = TokenType.Instruction) := by
  refine ⟨?_, ?_, ?_⟩
  · intro hni
    rw [finalizeTok_type]
    by_cases hc : a.type = TokenType.Identifier ∧ pol.isInstruction a.text l p = true
    · rw [if_pos hc]
      exact iff_of_true rfl hc
    · rw [if_neg hc]
      exact iff_of_false hni hc
  · intro hf
    have hc : ¬ (a.type = TokenType.Identifier ∧ pol.isInstruction a.text l p = true) := by
      rintro ⟨_, hi⟩
      rw [hf] at hi
      exact Bool.false_ne_true hi
    exact ⟨by rw [finalizeTok_type, if_neg hc], finalizeTok_text pol l p a⟩
  · intro hall ht
    obtain ⟨body, e, j, g⟩ := tokenizer_body pol eofFlag cs
    rw [e] at ht
    rcases List.mem_append.mp ht with hin | hin
    · intro hI
      obtain ⟨l2, p2, hi⟩ := (g t hin).2.2.2 hI
      rw [hall t.text l2 p2] at hi
      exact Bool.false_ne_true hi
    · have heq : t = eofTok := by
        cases eofFlag
        · simp at hin
        · simpa using hin
      subst heq
      decide

/-- Witness for C6 at the default policy (whose `isInstruction` is
constantly false), the concrete token emitted for input `"ab"`. -/
theorem instruction_promotion_iff_witness :
    defaultPolicy.isInstruction ['a', 'b'] 1 1 = false ∧
    ((finalizeTok defaultPolicy 1 1 (⟨195, TokenType.Identifier, ['a', 'b'], 1, 1⟩ : Token)).type =
      TokenType.Identifier) ∧
    (⟨195, TokenType.Identifier, ['a', 'b'], 1, 1⟩ : Token) ∈
      tokenizer defaultPolicy false "ab".toList ∧
    ¬ (⟨195, TokenType.Identifier, ['a', 'b'], 1, 1⟩ : Token).type = TokenType.Instruction := by
  have h := instruction_promotion_iff defaultPolicy false "ab".toList 1 1
    (⟨195, TokenType.Identifier, ['a', 'b'], 1, 1⟩ : Token)
    (⟨195, TokenType.Identifier, ['a', 'b'], 1, 1⟩ : Token)
  exact ⟨rfl, (h.2.1 rfl).1, by decide, h.2.2 (fun _ _ _ => rfl) (by decide)⟩

lemma pushToken_line (pol : Policy) (s : ScanState) : (pushToken pol s).line = s.line := rfl

lemma pushToken_pos (pol : Policy) (s : ScanState) : (pushToken pol s).pos = s.pos := rfl

lemma pushIfNotTypes_line (pol : Policy) (types : List TokenType) (s : ScanState) :
    (pushIfNotTypes pol types s).line = s.line := by
  simp only [pushIfNotTypes]
  split <;> rfl

lemma pushIfNotTypes_pos (pol : Policy) (types : List TokenType) (s : ScanState) :
    (pushIfNotTypes pol types s).pos = s.pos := by
  simp only [pushIfNotTypes]
  split <;> rfl

lemma concatIfTypes_line (pol : Policy) (types : List TokenType) (str : List Char) (s : ScanState) :
    (concatIfTypes pol types str s).line = s.line := by
  simp only [concatIfTypes]
  split <;> rfl

lemma concatIfTypes_pos (pol : Policy) (types : List TokenType) (str : List Char) (s : ScanState) :
    (concatIfTypes pol types str s).pos = s.pos := by
  simp only [concatIfTypes]
  split <;> rfl

lemma stringCase_line (pol : Policy) (c : Char) (s : ScanState) :
    (stringCase pol c s).line = s.line := by
  simp only [stringCase]
  split <;> simp [pushToken_line, concatIfTypes_line, pushIfNotTypes_line]

lemma stringCase_pos (pol : Policy) (c : Char) (s : ScanState) :
    (stringCase pol c s).pos = s.pos := by
  simp only [stringCase]
  split <;> simp [pushToken_pos, concatIfTypes_pos, pushIfNotTypes_pos]

lemma numericCase_line (pol : Policy) (c : Char) (s : ScanState) :
    (numericCase pol c s).line = s.line := by
  simp [numericCase, concatIfTypes_line, pushIfNotTypes_line]

lemma numericCase_pos (pol : Policy) (c : Char) (s : ScanState) :
    (numericCase pol c s).pos = s.pos := by
  simp [numericCase, concatIfTypes_pos, pushIfNotTypes_pos]

lemma alphaCase_line (pol : Policy) (c : Char) (s : ScanState) :
    (alphaCase pol c s).line = s.line := by
  simp [alphaCase, concatIfTypes_line, pushIfNotTypes_line]

lemma alphaCase_pos (pol : Policy) (c : Char) (s : ScanState) :
    (alphaCase pol c s).pos = s.pos := by
  simp [alphaCase, concatIfTypes_pos, pushIfNotTypes_pos]

lemma dispatch_line (pol : Policy) (c : Char) (s : ScanState) :
    (dispatch pol c s).line = s.line := by
  unfold dispatch
  split
  · exact stringCase_line pol c s
  all_goals split
  · exact concatIfTypes_line pol _ _ s
  all_goals split
  · simp [concatIfTypes_line, pushIfNotTypes_line]
  all_goals split
  · split <;> simp [concatIfTypes_line, pushIfNotTypes_line]
  all_goals split
  · exact numericCase_line pol c s
  all_goals split
  · exact alphaCase_line pol c s
  all_goals split
  · simp [concatIfTypes_line, pushIfNotTypes_line]
  all_goals split
  · simp [concatIfTypes_line, pushIfNotTypes_line]
  · simp [concatIfTypes_line, pushIfNotTypes_line]

lemma dispatch_pos (pol : Policy) (c : Char) (s : ScanState) :
    (dispatch pol c s).pos = s.pos := by
  unfold dispatch
  split
  · exact stringCase_pos pol c s
  all_goals split
  · exact concatIfTypes_pos pol _ _ s
  all_goals split
  · simp [concatIfTypes_pos, pushIfNotTypes_pos]
  all_goals split
  · split <;> simp [concatIfTypes_pos, pushIfNotTypes_pos]
  all_goals split
  · exact numericCase_pos pol c s
  all_goals split
  · exact alphaCase_pos pol c s
  all_goals split
  · simp [concatIfTypes_pos, pushIfNotTypes_pos]
  all_goals split
  · simp [concatIfTypes_pos, pushIfNotTypes_pos]
  · simp [concatIfTypes_pos, pushIfNotTypes_pos]

lemma processChar_line (pol : Policy) (c : Char) (s : ScanState) :
    (processChar pol c s).line = (adjustNl c s).line := by
  simp only [processChar]
  split
  · rfl
  · show (dispatch pol c (adjustNl c s)).line = _
    exact dispatch_line pol c (adjustNl c s)

lemma capOk_trans (s s1 s2 : ScanState) (h1 : CapOk s s1) (h2 : CapOk s1 s2)
    (hl : s1.line = s.line) (hp : s1.pos = s.pos) : CapOk s s2 := by
  rcases h2 with ⟨e1, e2⟩ | ⟨e1, e2⟩
  · rcases h1 with ⟨f1, f2⟩ | ⟨f1, f2⟩
    · exact Or.inl ⟨e1.trans f1, e2.trans f2⟩
    · exact Or.inr ⟨e1.trans f1, e2.trans f2⟩
  · exact Or.inr ⟨e1.trans hl, e2.trans hp⟩

lemma capOk_pushToken (pol : Policy) (s : ScanState) : CapOk s (pushToken pol s) :=
  Or.inr ⟨rfl, rfl⟩

lemma capOk_pushIfNotTypes (pol : Policy) (types : List TokenType) (s : ScanState) :
    CapOk s (pushIfNotTypes pol types s) := by
  simp only [pushIfNotTypes]
  split
  · exact Or.inl ⟨setType_line _ _, setType_pos _ _⟩
  · refine Or.inr ⟨?_, ?_⟩
    · rw [setType_line]
      rfl
    · rw [setType_pos]
      rfl

lemma capOk_concatIfTypes (pol : Policy) (types : List TokenType) (str : List Char) (s : ScanState) :
    CapOk s (concatIfTypes pol types str s) := by
  simp only [concatIfTypes]
  split
  · exact Or.inl ⟨setType_line _ _, setType_pos _ _⟩
  · exact Or.inl ⟨rfl, rfl⟩

lemma capOk_cp (pol : Policy) (X : TokenType) (c : Char) (s : ScanState) :
    CapOk s (concatIfTypes pol [X] [c] (pushIfNotTypes pol [TokenType.Unknown, X] s)) :=
  capOk_trans s _ _ (capOk_pushIfNotTypes pol _ s) (capOk_concatIfTypes pol _ _ _)
    (pushIfNotTypes_line pol _ s) (pushIfNotTypes_pos pol _ s)

lemma capOk_stringCase (pol : Policy) (c : Char) (s : ScanState) :
    CapOk s (stringCase pol c s) := by
  have hacc : CapOk s (concatIfTypes pol [TokenType.String, TokenType.Unknown] [c]
      (pushIfNotTypes pol [TokenType.Unknown, TokenType.String] s)) :=
    capOk_trans s _ _ (capOk_pushIfNotTypes pol _ s) (capOk_concatIfTypes pol _ _ _)
      (pushIfNotTypes_line pol _ s) (pushIfNotTypes_pos pol _ s)
  have hl : (concatIfTypes pol [TokenType.String, TokenType.Unknown] [c]
      (pushIfNotTypes pol [TokenType.Unknown, TokenType.String] s)).line = s.line := by
    rw [concatIfTypes_line, pushIfNotTypes_line]
  have hp : (concatIfTypes pol [TokenType.String, TokenType.Unknown] [c]
      (pushIfNotTypes pol [TokenType.Unknown, TokenType.String] s)).pos = s.pos := by
    rw [concatIfTypes_pos, pushIfNotTypes_pos]
  simp only [stringCase]
  split
  · exact capOk_trans s _ _ hacc (capOk_pushToken pol _) hl hp
  · exact hacc

lemma capOk_numericCase (pol : Policy) (c : Char) (s : ScanState) :
    CapOk s (numericCase pol c s) := by
  simp only [numericCase]
  exact capOk_cp pol _ c s

lemma capOk_alphaCase (pol : Policy) (c : Char) (s : ScanState) :
    CapOk s (alphaCase pol c s) := by
  simp only [alphaCase]
  exact capOk_cp pol _ c s

lemma capOk_dispatch (pol : Policy) (c : Char) (s : ScanState) :
    CapOk s (dispatch pol c s) := by
  unfold dispatch
  split
  · exact capOk_stringCase pol c s
  all_goals split
  · exact capOk_concatIfTypes pol _ _ s
  all_goals split
  · exact capOk_cp pol _ c s
  all_goals split
  · split
    · exact capOk_cp pol _ c s
    · exact capOk_cp pol _ c s
  all_goals split
  · exact capOk_numericCase pol c s
  all_goals split
  · exact capOk_alphaCase pol c s
  all_goals split
  · exact capOk_cp pol _ c s
  all_goals split
  · exact capOk_cp pol _ c s
  · exact capOk_cp pol _ c s

lemma processChar_capture (pol : Policy) (c : Char) (s : ScanState) :
    ((processChar pol c s).tok.line = s.tok.line ∧ (processChar pol c s).tok.pos = s.tok.pos) ∨
    ((processChar pol c s).tok.line = (adjustNl c s).line ∧
      (processChar pol c s).tok.pos = (adjustNl c s).pos) := by
  simp only [processChar]
  split
  · exact Or.inl ⟨by simp [adjustNl_tok], by simp [adjustNl_tok]⟩
  · have h := capOk_dispatch pol c (adjustNl c s)
    rcases h with ⟨e1, e2⟩ | ⟨e1, e2⟩
    · rw [adjustNl_tok] at e1 e2
      exact Or.inl ⟨e1, e2⟩
    · exact Or.inr ⟨e1, e2⟩

/-- Claim C7: with `isNumberSeparator` overridden to accept underscore
and dot, tokenizing `"1_000.50"` yields exactly one token, of type
Number, with text `"1_000.50"`. -/
theorem number_separator_gating :
    (tokenizer numSepPolicy false "1_000.50".toList).map (fun t => (t.type, t.text)) =
      [(TokenType.Number, "1_000.50".toList)] := by
  decide

/-- Counterexample to claim C5 as stated: with the default policy,
tokenizing `"1_000_000"` does not split at every underscore boundary —
the second output token is `"_000_000"`, which spans underscores
(it contains both an underscore and a digit). -/
theorem underscore_split_cex :
    (tokenizer defaultPolicy false "1_000_000".toList).map (fun t => (t.type, t.text)) =
      [(TokenType.Number, ['1']), (TokenType.Identifier, "_000_000".toList)] ∧
    ∃ t ∈ tokenizer defaultPolicy false "1_000_000".toList,
      '_' ∈ t.text ∧ '0' ∈ t.text := by
  decide

/-- Claim C5 amended: with the default policy, `"1_000_000"` splits only
at the first underscore: a Number token `"1"` followed by one Identifier
token `"_000_000"` (digits continue an Identifier accumulator, so the
later underscores do not split further). -/
theorem underscore_split_amended :
    (tokenizer defaultPolicy false "1_000_000".toList).map (fun t => (t.type, t.text)) =
      [(TokenType.Number, ['1']), (TokenType.Identifier, "_000_000".toList)] := by
  decide

/-- Counterexample to claim C4 as stated: for the input consisting of
quote, backslash, backslash, quote, x, the default-policy tokenizer
swallows the second quote although its preceding backslash is itself
escaped — backslash pairs do not cancel — so the whole input remains a
single open String token instead of the closed string followed by an
identifier that pairing semantics would produce. -/
theorem escape_pairing_cex :
    (tokenizer defaultPolicy false "\"\\\\\"x".toList).map (fun t => (t.type, t.text)) =
      [(TokenType.String, "\"\\\\\"x".toList)] ∧
    (tokenizer defaultPolicy false "\"\\\\\"x".toList).length = 1 := by
  decide

/-- Claim C4 amended: a string-delimiter character is swallowed into the
accumulator as an escaped literal exactly when the accumulator text ends
with a backslash character — regardless of whether that backslash is
itself escaped (`endsWith`, not pair cancellation); the swallow changes
nothing else (and skips the column increment). -/
theorem escape_swallow_amended (pol : Policy) (c : Char) (s : ScanState)
    (h1 : pol.isString c (adjustNl c s).line (adjustNl c s).pos = true)
    (h2 : endsWithBackslash s.tok.text = true) :
    processChar pol c s =
      { adjustNl c s with tok := { s.tok with text := s.tok.text ++ [c] } } := by
  have hsw : swallowsEsc pol c s = true := by
    simp [swallowsEsc, h1, adjustNl_tok, h2]
  simp only [processChar]
  rw [if_pos hsw, adjustNl_tok]

/-- Witness for the amended C4 at a concrete mid-string state: the
accumulator holds a quote and a backslash, and the next quote is
swallowed. -/
theorem escape_swallow_amended_witness :
    defaultPolicy.isString '"'
        (adjustNl '"' (⟨[], 1, 3, ⟨0, TokenType.String, ['"', '\\'], 1, 1⟩⟩ : ScanState)).line
        (adjustNl '"' (⟨[], 1, 3, ⟨0, TokenType.String, ['"', '\\'], 1, 1⟩⟩ : ScanState)).pos = true ∧
    endsWithBackslash (⟨[], 1, 3, ⟨0, TokenType.String, ['"', '\\'], 1, 1⟩⟩ : ScanState).tok.text = true ∧
    processChar defaultPolicy '"' (⟨[], 1, 3, ⟨0, TokenType.String, ['"', '\\'], 1, 1⟩⟩ : ScanState) =
      { adjustNl '"' (⟨[], 1, 3, ⟨0, TokenType.String, ['"', '\\'], 1, 1⟩⟩ : ScanState) with
        tok := { (⟨[], 1, 3, ⟨0, TokenType.String, ['"', '\\'], 1, 1⟩⟩ : ScanState).tok with
          text := (⟨[], 1, 3, ⟨0, TokenType.String, ['"', '\\'], 1, 1⟩⟩ : ScanState).tok.text ++ ['"'] } } :=
  ⟨by decide, by decide,
    escape_swallow_amended defaultPolicy '"'
      (⟨[], 1, 3, ⟨0, TokenType.String, ['"', '\\'], 1, 1⟩⟩ : ScanState) (by decide) (by decide)⟩

/-- Counterexample to claim C3 as stated: in `"a"b` the token `b` is
classified while the column counter reads 4 (the instant its accumulator
leaves `Unknown`), yet its stored `pos` is 3 — the column of the closing
quote, captured when the String token was emitted early. -/
theorem pos_capture_cex :
    (tokenizer defaultPolicy false "\"a\"b".toList).map
        (fun t => (t.type, t.text, t.line, t.pos)) =
      [(TokenType.String, "\"a\"".toList, 1, 1), (TokenType.Identifier, ['b'], 1, 3)] ∧
    (adjustNl 'b' (runScan defaultPolicy ("\"a\"b".toList.take 3) initState)).pos = 4 ∧
    ¬ (3 : Nat) = 4 := by
  refine ⟨by decide, by decide, by decide⟩

/-- Claim C3 amended: a token's stored `line`/`pos` are captured at the
most recent accumulator reset and never updated afterwards: `pushToken`
resets the accumulator to the current counters, and each scanned
character either leaves the stored position untouched or captures the
(newline-adjusted) counters of that character.  For a token that begins
immediately after an early-emitted String token, the capture happened at
the closing delimiter — one column before the token's first character —
as the `"a"b` run shows (`b` stores pos 3, the quote's column). -/
theorem pos_capture_amended :
    (∀ (pol : Policy) (s : ScanState),
      (pushToken pol s).tok.line = s.line ∧ (pushToken pol s).tok.pos = s.pos) ∧
    (∀ (pol : Policy) (c : Char) (s : ScanState),
      ((processChar pol c s).tok.line = s.tok.line ∧
        (processChar pol c s).tok.pos = s.tok.pos) ∨
      ((processChar pol c s).tok.line = (adjustNl c s).line ∧
        (processChar pol c s).tok.pos = (adjustNl c s).pos)) ∧
    (tokenizer defaultPolicy false "\"a\"b".toList).map
        (fun t => (t.type, t.text, t.line, t.pos)) =
      [(TokenType.String, "\"a\"".toList, 1, 1), (TokenType.Identifier, ['b'], 1, 3)] :=
  ⟨fun _ _ => ⟨rfl, rfl⟩, processChar_capture, by decide⟩

lemma runInc_key (pol : Policy) :
    ∀ (cs : List Char) (s : ScanState) (i k : Nat),
      (runInc pol cs (s, i, k)).1 = runScan pol cs s ∧
      (runInc pol cs (s, i, k)).2.1 + (runInc pol cs (s, i, k)).2.2 = i + k + cs.length := by
  intro cs
  induction cs with
  | nil =>
    intro s i k
    exact ⟨rfl, rfl⟩
  | cons c cs ih =>
    intro s i k
    by_cases hsw : swallowsEsc pol c s = true
    · have e : stepInc pol (s, i, k) c = (processChar pol c s, i, k + 1) := by
        simp [stepInc, hsw]
      have e2 : runInc pol (c :: cs) (s, i, k) = runInc pol cs (processChar pol c s, i, k + 1) := by
        show runInc pol cs (stepInc pol (s, i, k) c) = _
        rw [e]
      obtain ⟨a, b⟩ := ih (processChar pol c s) i (k + 1)
      rw [e2]
      refine ⟨a, ?_⟩
      rw [b, List.length_cons]
      omega
    · have e : stepInc pol (s, i, k) c = (processChar pol c s, i + 1, k) := by
        simp [stepInc, hsw]
      have e2 : runInc pol (c :: cs) (s, i, k) = runInc pol cs (processChar pol c s, i + 1, k) := by
        show runInc pol cs (stepInc pol (s, i, k) c) = _
        rw [e]
      obtain ⟨a, b⟩ := ih (processChar pol c s) (i + 1) k
      rw [e2]
      refine ⟨a, ?_⟩
      rw [b, List.length_cons]
      omega

/-- Counterexample to claim C2 as stated: in the four-character input
quote, backslash, quote, x, the quote at index 2 is swallowed as an
escaped literal and its `pos++` is skipped by the `continue`; when `x`
(index 3) is classified the column counter has been incremented only 2
times, not 3, and indeed reads 3 instead of 4. -/
theorem col_increment_cex :
    ("\"\\\"x".toList).length = 4 ∧
    (runInc defaultPolicy (("\"\\\"x".toList).take 3) (initState, 0, 0)).2.1 = 2 ∧
    (adjustNl 'x' (runScan defaultPolicy (("\"\\\"x".toList).take 3) initState)).pos = 3 ∧
    ¬ (2 : Nat) = 3 := by
  refine ⟨by decide, by decide, by decide, by decide⟩

/-- Claim C2 amended: the column counter is incremented by exactly 1
after fully processing each character except for string-delimiter
characters swallowed as backslash-escaped literals, whose `continue`
skips the increment; so the number of increments plus the number of
swallowed characters equals the number of characters processed (and the
instrumented machine follows the real scan). -/
theorem col_increment_amended (pol : Policy) (cs : List Char) :
    (runInc pol cs (initState, 0, 0)).1 = runScan pol cs initState ∧
    (runInc pol cs (initState, 0, 0)).2.1 + (runInc pol cs (initState, 0, 0)).2.2 = cs.length := by
  obtain ⟨a, b⟩ := runInc_key pol cs initState 0 0
  exact ⟨a, by rw [b]; omega⟩

lemma runScan_line (pol : Policy) :
    ∀ (cs : List Char) (s : ScanState),
      (runScan pol cs s).line = s.line + cs.count '\n' := by
  intro cs
  induction cs with
  | nil =>
    intro s
    simp [runScan]
  | cons c cs ih =>
    intro s
    show (runScan pol cs (processChar pol c s)).line = _
    rw [ih, processChar_line, adjustNl_line]
    by_cases hc : c = '\n' <;> simp [List.count_cons, hc]
    all_goals omega

/-- Claim C10: for every policy, the line number current when the
character at index `i` is classified (the newline-adjusted counter that
every validator receives and that token capture uses at that instant)
equals 1 plus the number of newline characters among indices 0..i
inclusive; newline detection is hard-coded, so no validator override
changes it. -/
theorem line_count_policy_independent (pol : Policy) (cs : List Char) (i : Nat)
    (h : i < cs.length) :
    (adjustNl (cs.get ⟨i, h⟩) (runScan pol (cs.take i) initState)).line =
      1 + (cs.take (i + 1)).count '\n' := by
  rw [adjustNl_line, runScan_line]
  have ht : cs.take (i + 1) = cs.take i ++ [cs.get ⟨i, h⟩] := by
    rw [List.take_succ, List.getElem?_eq_getElem h]
    simp [List.get_eq_getElem]
  rw [ht, List.count_append]
  by_cases hc : cs.get ⟨i, h⟩ = '\n' <;> simp [initState, List.count_cons, hc] <;> omega

/-- Witness for C10 at the concrete input `"a\nb"`, index 2: the
character `b` is classified on line 2, matching one newline among the
first three characters. -/
theorem line_count_policy_independent_witness :
    2 < ("a\nb".toList).length ∧
    (adjustNl (("a\nb".toList).get ⟨2, by decide⟩)
        (runScan defaultPolicy (("a\nb".toList).take 2) initState)).line =
      1 + (("a\nb".toList).take 3).count '\n' ∧
    1 + (("a\nb".toList).take 3).count '\n' = 2 := by
  refine ⟨by decide, ?_, by decide⟩
  exact line_count_policy_independent defaultPolicy ("a\nb".toList) 2 (by decide)

end Tokenizer
